import Mathlib

/-
Verification of the url-shortener core (src/main.go) against its
natural-language specification.

Shallow embedding notes:
- Go `time.Duration` is an Int64 count of nanoseconds; we model it as `Int`.
- The Redis backing store is modelled as an association list from key
  strings to entries (value plus optional TTL), together with a schedule
  of transport failures: each round trip to the server consumes one
  element of the schedule, and a `true` element makes that round trip
  fail with a transport error, leaving the data unchanged.
- `rand.Intn n` is modelled by an oracle stream `rng : Nat → Nat` whose
  values are reduced `% n` (Go guarantees the result is `< n`).
- Redis `INCRBY` on a string value parses it as an integer; we model the
  parse with `String.toInt?` and fail with a wrong-type error otherwise.
- `SCAN` with match pattern `"url:*"` (the only pattern the program uses)
  is modelled as a prefix match; the `COUNT 10` hint is modelled as an
  upper bound on the number of keys returned by the single call.
-/

set_option autoImplicit false

namespace UrlShortener

/-- Go durations: integer nanoseconds. -/
abbrev Duration := Int

/-- Model of `var default_ttl, _ = time.ParseDuration("1h")`: one hour in
nanoseconds. -/
def default_ttl : Duration := 3600000000000

/-- Model of `const runes` (main.go line 38): the slug alphabet. -/
def runes : String := "abcdefghjklmnpqrstuvwxyzABCDEFGHJKLMNPQRSTUVWXYZ1234567890"

/-- Model of `randomSlug` (main.go lines 40-48): 8 characters, each
`runes[rand.Intn(len(runes))]`, with `rand.Intn` drawn from the oracle
stream `rng` reduced mod the alphabet size. -/
def randomSlug (rng : Nat → Nat) : String :=
  String.mk ((List.range 8).map fun i => runes.toList.getD (rng i % runes.toList.length) 'a')

/-- Model of `slugIsValid` (main.go lines 50-57): every character of the
candidate must occur in `runes` (`strings.Contains` on a one-character
string is character membership). -/
def slugIsValid (slug : String) : Bool :=
  slug.toList.all fun c => runes.toList.contains c

/-- Split a character list at the first occurrence of `c`: the parts
before and after it, or `none` when `c` does not occur. -/
def splitFirstAux (c : Char) : List Char → Option (List Char × List Char)
  | [] => none
  | x :: xs =>
    if x = c then some ([], xs)
    else
      match splitFirstAux c xs with
      | none => none
      | some (a, b) => some (x :: a, b)

/-- Model of Go `strings.SplitN(s, sep, 2)` for the one-character
separator the program uses: split at the first occurrence of `sep`
only, the second part keeping any further occurrences. -/
def splitN2 (s : String) (sep : Char) : List String :=
  match splitFirstAux sep s.toList with
  | none => [s]
  | some (a, b) => [String.mk a, String.mk b]

/-- Model of `slugFromKey` (main.go lines 59-66). -/
def slugFromKey (key : String) : Except String String :=
  match splitN2 key ':' with
  | [_, b] => Except.ok b
  | _ => Except.error "Cannot parse key"

/-- Model of `keyOfSlug` (main.go lines 68-70). -/
def keyOfSlug (slug : String) : String := "url:" ++ slug

/-- Model of `keyOfSlugHitCount` (main.go lines 72-74). -/
def keyOfSlugHitCount (slug : String) : String := "urlhitcount:" ++ slug

/-- Redis values: either a plain string (written by SET/SETNX) or an
integer counter (written by INCR/INCRBY). -/
inductive RVal where
  | str : String → RVal
  | int : Int → RVal
deriving DecidableEq

/-- String representation of a value, as Redis GET returns it. -/
def RVal.toStr : RVal → String
  | .str s => s
  | .int n => toString n

/-- One stored key: its value and its optional TTL (`none` = no expiry). -/
structure Entry where
  val : RVal
  ttl : Option Duration
deriving DecidableEq

/-- The modelled Redis connection: stored data plus the schedule of
transport failures, one boolean per round trip (`true` = that round trip
fails; an exhausted schedule means no further failures). -/
structure Redis where
  data : List (String × Entry)
  glitches : List Bool
deriving DecidableEq

/-- Errors a Redis command can produce: `nilReply` is `redis.Nil` (key
missing), `wrongType` is the integer-parse failure of INCRBY, and
`backendUnavailable` is a transport-level failure. -/
inductive RErr where
  | nilReply
  | wrongType
  | backendUnavailable
deriving DecidableEq

/-- Consume one round trip from the failure schedule. -/
def tick (r : Redis) : Bool × Redis :=
  match r.glitches with
  | [] => (false, r)
  | g :: gs => (g, { r with glitches := gs })

/-- First entry stored under a key. -/
def rget (d : List (String × Entry)) (k : String) : Option Entry :=
  match d with
  | [] => none
  | (k2, e) :: rest => if k2 = k then some e else rget rest k

/-- Store an entry under a key, replacing any existing one. -/
def rset (d : List (String × Entry)) (k : String) (e : Entry) : List (String × Entry) :=
  match d with
  | [] => [(k, e)]
  | (k2, e2) :: rest => if k2 = k then (k, e) :: rest else (k2, e2) :: rset rest k e

/-- Server-side GET: the value as a string, or `redis.Nil` if absent. -/
def getData (d : List (String × Entry)) (k : String) : Except RErr String :=
  match rget d k with
  | none => Except.error RErr.nilReply
  | some e => Except.ok e.val.toStr

/-- Server-side INCRBY: an absent key counts as 0 and is created (even
for increment 0), an integer value is incremented in place keeping its
TTL, and a non-integer string fails. Returns the new value. -/
def incrByData (d : List (String × Entry)) (k : String) (n : Int) :
    Except RErr (Int × List (String × Entry)) :=
  match rget d k with
  | none => Except.ok (n, rset d k ⟨RVal.int n, none⟩)
  | some ⟨RVal.int m, t⟩ => Except.ok (m + n, rset d k ⟨RVal.int (m + n), t⟩)
  | some ⟨RVal.str s, t⟩ =>
    match s.toInt? with
    | some m => Except.ok (m + n, rset d k ⟨RVal.int (m + n), t⟩)
    | none => Except.error RErr.wrongType

/-- Server-side TTL: remaining TTL, with go-redis sentinels -2 (missing
key) and -1 (no expiry). -/
def ttlData (d : List (String × Entry)) (k : String) : Duration :=
  match rget d k with
  | none => -2
  | some ⟨_, none⟩ => -1
  | some ⟨_, some t⟩ => t

/-- Server-side EXPIRE: set the TTL of an existing key. -/
def expireData (d : List (String × Entry)) (k : String) (t : Duration) :
    Bool × List (String × Entry) :=
  match rget d k with
  | none => (false, d)
  | some e => (true, rset d k ⟨e.val, some t⟩)

/-- Client SETNX round trip (consumes one schedule slot). -/
def setNX (r : Redis) (k : String) (v : String) (t : Duration) :
    Except RErr Bool × Redis :=
  match tick r with
  | (true, r1) => (Except.error RErr.backendUnavailable, r1)
  | (false, r1) =>
    match rget r1.data k with
    | some _ => (Except.ok false, r1)
    | none => (Except.ok true, { r1 with data := rset r1.data k ⟨RVal.str v, some t⟩ })

/-- The record returned to callers, from `type ShortUrl struct`. -/
structure ShortUrl where
  Slug : String
  Target : String
  Clicks : Int
  Ttl : Duration
deriving DecidableEq

/-- The message of the error `store` returns after exhausting its
attempts; the spec names this condition `AllocationExhausted`. -/
def storeErrMsg : String := "Could not store new url after several attempts"

/-- Advance the random oracle by `k` draws. -/
def rngShift (rng : Nat → Nat) (k : Nat) : Nat → Nat := fun i => rng (i + k)

/-- Loop body of `store` (main.go lines 79-97): `fuel` remaining
attempts, `off` the number of random draws already consumed, `log` the
slugs so far logged by the `else` (collision) branch. Note the Go code
takes the `else` branch — log and retry with a fresh slug — both when
SETNX reports the key occupied and when SETNX returns an error. -/
def storeAux (rng : Nat → Nat) (target : String) :
    Nat → Nat → Redis → List String → Except String ShortUrl × Redis × List String
  | 0, _, r, log => (Except.error storeErrMsg, r, log)
  | fuel + 1, off, r, log =>
    let slug := randomSlug (rngShift rng off)
    match setNX r (keyOfSlug slug) target default_ttl with
    | (Except.ok true, r1) => (Except.ok ⟨slug, target, 0, default_ttl⟩, r1, log)
    | (Except.ok false, r1) => storeAux rng target fuel (off + 8) r1 (log ++ [slug])
    | (Except.error _, r1) => storeAux rng target fuel (off + 8) r1 (log ++ [slug])

/-- Model of `store` (main.go lines 76-100): up to 10 attempts, each with
a freshly generated slug; also returns the collision log. -/
def store (rng : Nat → Nat) (r : Redis) (target : String) :
    Except String ShortUrl × Redis × List String :=
  storeAux rng target 10 0 r []

/-- Model of `getDetailsOfKey` (main.go lines 102-123): one pipelined
round trip issuing GET on the primary key, INCRBY 0 on the counter key,
and TTL on the primary key. All three commands execute server-side; the
first command error (go-redis returns `redis.Nil` from a pipeline whose
GET missed) is surfaced. -/
def getDetailsOfKey (r : Redis) (slug : String) : Except RErr ShortUrl × Redis :=
  match tick r with
  | (true, r1) => (Except.error RErr.backendUnavailable, r1)
  | (false, r1) =>
    let tRes := getData r1.data (keyOfSlug slug)
    let cRes := incrByData r1.data (keyOfSlugHitCount slug) 0
    let d2 := match cRes with
      | Except.ok (_, d) => d
      | Except.error _ => r1.data
    let r2 : Redis := { r1 with data := d2 }
    match tRes, cRes with
    | Except.error e, _ => (Except.error e, r2)
    | Except.ok _, Except.error e => (Except.error e, r2)
    | Except.ok tv, Except.ok (n, _) =>
      (Except.ok ⟨slug, tv, n, ttlData d2 (keyOfSlug slug)⟩, r2)

/-- Model of the resolve/redirect path of the root handler (main.go
lines 163 and 182-196): GET the primary key (missing slug means a 404
and no side effect); then `redis_db.Incr` on the counter key executes as
its own eager round trip (its error is ignored, leaving the observed
count 0); then one pipelined round trip issues EXPIRE on the counter key
and EXPIRE on the primary key, refreshing both TTLs. Returns the
redirect target and the observed new count. -/
def recordHit (r : Redis) (slug : String) : Except RErr (String × Int) × Redis :=
  match tick r with
  | (true, r1) => (Except.error RErr.backendUnavailable, r1)
  | (false, r1) =>
    match getData r1.data (keyOfSlug slug) with
    | Except.error e => (Except.error e, r1)
    | Except.ok target =>
      let p2 := tick r1
      let cd := match p2.1 with
        | true => (0, p2.2.data)
        | false =>
          match incrByData p2.2.data (keyOfSlugHitCount slug) 1 with
          | Except.ok (n, d) => (n, d)
          | Except.error _ => (0, p2.2.data)
      let r3 : Redis := { p2.2 with data := cd.2 }
      let p4 := tick r3
      let d5 := match p4.1 with
        | true => p4.2.data
        | false =>
          let da := (expireData p4.2.data (keyOfSlugHitCount slug) default_ttl).2
          (expireData da (keyOfSlug slug) default_ttl).2
      (Except.ok (target, cd.1), { p4.2 with data := d5 })

/-- One SCAN call (main.go line 130): keys matching the pattern, at most
`count` of them; the pattern `"url:*"` is modelled as a prefix match on
the pattern minus its trailing star. -/
def scanData (d : List (String × Entry)) (pat : String) (count : Nat) : List String :=
  ((d.map Prod.fst).filter fun k => (pat.dropRight 1).isPrefixOf k).take count

/-- Loop of `sampleExisting` (main.go lines 131-137): for each scanned
key, parse the slug and read its details; entries whose parse or read
fails are skipped. -/
def sampleGo (keys : List String) (r : Redis) (acc : List ShortUrl) :
    List ShortUrl × Redis :=
  match keys with
  | [] => (acc, r)
  | k :: rest =>
    match slugFromKey k with
    | Except.error _ => sampleGo rest r acc
    | Except.ok slug =>
      match getDetailsOfKey r slug with
      | (Except.ok su, r1) => sampleGo rest r1 (acc ++ [su])
      | (Except.error _, r1) => sampleGo rest r1 acc

/-- Model of `sampleExisting` (main.go lines 125-140): one SCAN round
trip (a failed scan yields the empty sample), then the read loop. -/
def sampleExisting (r : Redis) : List ShortUrl × Redis :=
  match tick r with
  | (true, r1) => ([], r1)
  | (false, r1) => sampleGo (scanData r1.data (keyOfSlug "*") 10) r1 []

/-- The four core operations, as state transformers, for stating
whole-system invariants. -/
inductive Op where
  | create (rng : Nat → Nat) (target : String)
  | get (slug : String)
  | hit (slug : String)
  | enumerate

/-- State effect of one core operation. -/
def step (r : Redis) : Op → Redis
  | Op.create rng target => (store rng r target).2.1
  | Op.get slug => (getDetailsOfKey r slug).2
  | Op.hit slug => (recordHit r slug).2
  | Op.enumerate => (sampleExisting r).2

/-- Observed click count of a slug: the counter key's integer value,
with an absent (or non-integer) counter read as 0. -/
def clicksOfD (d : List (String × Entry)) (slug : String) : Int :=
  match rget d (keyOfSlugHitCount slug) with
  | some ⟨RVal.int n, _⟩ => n
  | _ => 0

/-- Observed click count on a connection state. -/
def clicksOf (r : Redis) (slug : String) : Int := clicksOfD r.data slug

/-- Every stored counter key holds a non-negative integer. -/
def CounterInvD (d : List (String × Entry)) : Prop :=
  ∀ s e, rget d (keyOfSlugHitCount s) = some e →
    ∃ n t, e = ⟨RVal.int n, t⟩ ∧ 0 ≤ n

/-- A slug whose primary key is absent has observed click count 0. -/
def FreshInvD (d : List (String × Entry)) : Prop :=
  ∀ s, rget d (keyOfSlug s) = none → clicksOfD d s = 0

/-- The two-part state invariant maintained by the core operations. -/
def StoreInv (r : Redis) : Prop := CounterInvD r.data ∧ FreshInvD r.data

/-- Concrete state used to exhibit the state change performed by
`getDetailsOfKey` when the counter key is absent. -/
def oneSlugState : Redis :=
  ⟨[("url:abcdefgh", ⟨RVal.str "http://example.com", some default_ttl⟩)], []⟩

/- ------------------------------------------------------------------ -/
/- Helper lemmas                                                       -/
/- ------------------------------------------------------------------ -/

theorem rget_rset_self (d : List (String × Entry)) (k : String) (e : Entry) :
    rget (rset d k e) k = some e := by
  induction d with
  | nil => simp [rset, rget]
  | cons p rest ih =>
    obtain ⟨k2, e2⟩ := p
    by_cases h : k2 = k
    · simp [rset, rget, h]
    · simp [rset, rget, h, ih]

theorem rget_rset_ne (d : List (String × Entry)) (k k2 : String) (e : Entry)
    (h : k ≠ k2) : rget (rset d k e) k2 = rget d k2 := by
  induction d with
  | nil => simp [rset, rget, h]
  | cons p rest ih =>
    obtain ⟨k3, e3⟩ := p
    by_cases h3 : k3 = k
    · subst h3
      simp [rset, rget, h]
    · simp only [rset, if_neg h3, rget]
      by_cases h4 : k3 = k2 <;> simp [h4, ih]

theorem keyOfSlug_inj (a b : String) (h : keyOfSlug a = keyOfSlug b) : a = b := by
  simp only [keyOfSlug] at h
  have h2 := congrArg String.data h
  simp only [String.data_append] at h2
  exact String.ext (List.append_cancel_left h2)

theorem keyOfSlugHitCount_inj (a b : String)
    (h : keyOfSlugHitCount a = keyOfSlugHitCount b) : a = b := by
  simp only [keyOfSlugHitCount] at h
  have h2 := congrArg String.data h
  simp only [String.data_append] at h2
  exact String.ext (List.append_cancel_left h2)

theorem keyOfSlug_ne_hitCount (a b : String) : keyOfSlug a ≠ keyOfSlugHitCount b := by
  intro h
  have h2 := congrArg (fun s => s.data.get? 3) h
  simp only [keyOfSlug, keyOfSlugHitCount, String.data_append] at h2
  rw [List.get?_append (by decide), List.get?_append (by decide)] at h2
  exact absurd (Option.some.inj h2) (by decide)

theorem randomSlug_length (rng : Nat → Nat) : (randomSlug rng).length = 8 := by
  rw [randomSlug, String.length_mk]
  simp

theorem randomSlug_mem_runes (rng : Nat → Nat) (c : Char)
    (h : c ∈ (randomSlug rng).toList) : c ∈ runes.toList := by
  have hl : (randomSlug rng).toList =
      (List.range 8).map fun i => runes.toList.getD (rng i % runes.toList.length) 'a' := rfl
  rw [hl] at h
  obtain ⟨i, _, rfl⟩ := List.mem_map.mp h
  have hlt : rng i % runes.toList.length < runes.toList.length :=
    Nat.mod_lt _ (by decide)
  rw [List.getD_eq_getElem?_getD, List.getElem?_eq_getElem hlt]
  simpa using List.getElem_mem hlt

theorem slugIsValid_iff (s : String) :
    slugIsValid s = true ↔ ∀ c ∈ s.toList, c ∈ runes.toList := by
  simp [slugIsValid, List.all_eq_true, List.elem_iff]

theorem storeAux_all_occupied (rng : Nat → Nat) (target : String) :
    ∀ (fuel off : Nat) (r : Redis) (log : List String),
      r.glitches = [] →
      (∀ k, k < fuel →
        (rget r.data (keyOfSlug (randomSlug (rngShift rng (off + 8 * k))))).isSome = true) →
      storeAux rng target fuel off r log =
        (Except.error storeErrMsg, r,
         log ++ (List.range fuel).map fun k => randomSlug (rngShift rng (off + 8 * k))) := by
  intro fuel
  induction fuel with
  | zero =>
    intro off r log hg hocc
    simp [storeAux]
  | succ n ih =>
    intro off r log hg hocc
    have h0 := hocc 0 (Nat.succ_pos n)
    simp only [Nat.mul_zero, Nat.add_zero] at h0
    obtain ⟨e, he⟩ := Option.isSome_iff_exists.mp h0
    have htick : tick r = (false, r) := by simp [tick, hg]
    have hnx : setNX r (keyOfSlug (randomSlug (rngShift rng off))) target default_ttl =
        (Except.ok false, r) := by
      simp [setNX, htick, he]
    rw [storeAux]
    simp only [hnx]
    rw [ih (off + 8) r (log ++ [randomSlug (rngShift rng off)]) hg
      (fun k hk => by
        have := hocc (k + 1) (Nat.succ_lt_succ hk)
        have harith : off + 8 * (k + 1) = off + 8 + 8 * k := by ring
        rwa [harith] at this)]
    have hmap : (List.range (n + 1)).map
          (fun k => randomSlug (rngShift rng (off + 8 * k))) =
        randomSlug (rngShift rng off) ::
          (List.range n).map (fun k => randomSlug (rngShift rng (off + 8 + 8 * k))) := by
      rw [List.range_succ_eq_map, List.map_cons, List.map_map]
      refine congrArg₂ _ (by simp) (List.map_congr_left fun k _ => ?_)
      have harith : off + 8 * (k + 1) = off + 8 + 8 * k := by ring
      simp [Function.comp, harith]
    simp [hmap]

theorem storeAux_all_glitch (rng : Nat → Nat) (target : String) :
    ∀ (fuel off : Nat) (r : Redis) (log : List String),
      r.glitches = List.replicate fuel true →
      storeAux rng target fuel off r log =
        (Except.error storeErrMsg, { r with glitches := [] },
         log ++ (List.range fuel).map fun k => randomSlug (rngShift rng (off + 8 * k))) := by
  intro fuel
  induction fuel with
  | zero =>
    intro off r log hg
    simp only [List.replicate] at hg
    simp [storeAux, ← hg]
  | succ n ih =>
    intro off r log hg
    have htick : tick r = (true, { r with glitches := List.replicate n true }) := by
      simp [tick, hg, List.replicate]
    have hnx : setNX r (keyOfSlug (randomSlug (rngShift rng off))) target default_ttl =
        (Except.error RErr.backendUnavailable, { r with glitches := List.replicate n true }) := by
      simp [setNX, htick]
    rw [storeAux]
    simp only [hnx]
    rw [ih (off + 8) _ (log ++ [randomSlug (rngShift rng off)]) rfl]
    have hmap : (List.range (n + 1)).map
          (fun k => randomSlug (rngShift rng (off + 8 * k))) =
        randomSlug (rngShift rng off) ::
          (List.range n).map (fun k => randomSlug (rngShift rng (off + 8 + 8 * k))) := by
      rw [List.range_succ_eq_map, List.map_cons, List.map_map]
      refine congrArg₂ _ (by simp) (List.map_congr_left fun k _ => ?_)
      have harith : off + 8 * (k + 1) = off + 8 + 8 * k := by ring
      simp [Function.comp, harith]
    simp [hmap]

theorem getDetails_glitch (r : Redis) (slug : String)
    (h : r.glitches.head? = some true) :
    getDetailsOfKey r slug =
      (Except.error RErr.backendUnavailable, ⟨r.data, r.glitches.tail⟩) := by
  obtain ⟨d, gl⟩ := r
  cases gl with
  | nil => simp at h
  | cons g gs =>
    simp at h
    subst h
    simp [getDetailsOfKey, tick]

theorem getDetails_spec (r : Redis) (slug : String)
    (hctr : CounterInvD r.data) (hhead : r.glitches.head? ≠ some true) :
    getDetailsOfKey r slug =
      ((match rget r.data (keyOfSlug slug) with
        | none => Except.error RErr.nilReply
        | some e => Except.ok ⟨slug, e.val.toStr, clicksOfD r.data slug,
            ttlData r.data (keyOfSlug slug)⟩),
       ⟨rset r.data (keyOfSlugHitCount slug)
          ⟨RVal.int (clicksOfD r.data slug),
           (rget r.data (keyOfSlugHitCount slug)).bind Entry.ttl⟩,
        r.glitches.tail⟩) := by
  obtain ⟨d, gl⟩ := r
  have htick : tick ⟨d, gl⟩ = (false, ⟨d, gl.tail⟩) := by
    cases gl with
    | nil => simp [tick]
    | cons g gs =>
      simp at hhead
      cases g
      · simp [tick]
      · simp at hhead
  have hne : keyOfSlugHitCount slug ≠ keyOfSlug slug :=
    Ne.symm (keyOfSlug_ne_hitCount slug slug)
  have httl : ∀ e2 : Entry,
      ttlData (rset d (keyOfSlugHitCount slug) e2) (keyOfSlug slug) =
        ttlData d (keyOfSlug slug) := by
    intro e2
    simp [ttlData, rget_rset_ne _ _ _ _ hne]
  rcases hcase : rget d (keyOfSlugHitCount slug) with _ | e
  · have hincr : incrByData d (keyOfSlugHitCount slug) 0 =
        Except.ok (0, rset d (keyOfSlugHitCount slug) ⟨RVal.int 0, none⟩) := by
      simp [incrByData, hcase]
    have hclicks : clicksOfD d slug = 0 := by simp [clicksOfD, hcase]
    cases hmain : rget d (keyOfSlug slug) <;>
      simp [getDetailsOfKey, htick, getData, hmain, hincr, hclicks, hcase, httl]
  · obtain ⟨n, t, he, hn⟩ := hctr slug e hcase
    subst he
    have hincr : incrByData d (keyOfSlugHitCount slug) 0 =
        Except.ok (n, rset d (keyOfSlugHitCount slug) ⟨RVal.int n, t⟩) := by
      simp [incrByData, hcase]
    have hclicks : clicksOfD d slug = n := by simp [clicksOfD, hcase]
    cases hmain : rget d (keyOfSlug slug) <;>
      simp [getDetailsOfKey, htick, getData, hmain, hincr, hclicks, hcase, httl]

theorem counterInvD_nil : CounterInvD [] := by
  intro s e h
  simp [rget] at h

theorem freshInvD_nil : FreshInvD [] := by
  intro s _
  simp [clicksOfD, rget]

theorem counterInvD_oneSlug : CounterInvD oneSlugState.data := by
  intro s e h
  simp only [oneSlugState, rget] at h
  split at h
  · rename_i heq
    exact absurd heq (by
      have hlit : ("url:abcdefgh" : String) = keyOfSlug "abcdefgh" := rfl
      rw [hlit]
      exact keyOfSlug_ne_hitCount _ s)
  · exact absurd h (by simp [rget])

/- ------------------------------------------------------------------ -/
/- Claims                                                              -/
/- ------------------------------------------------------------------ -/

/-- C1: if every one of the 10 set-if-absent attempts finds its primary
key already occupied (and the backend is healthy), `store` fails with
the allocation-exhausted error, leaves the state unchanged, and its
collision log records exactly 10 attempts, the k-th using the freshly
generated slug drawn from the oracle at offset 8k (a new generator call
per attempt, not a retry of the same slug). -/
theorem claim1_store_exhaustion (rng : Nat → Nat) (r : Redis) (target : String)
    (hg : r.glitches = [])
    (hocc : ∀ k, k < 10 →
      (rget r.data (keyOfSlug (randomSlug (rngShift rng (8 * k))))).isSome = true) :
    store rng r target =
      (Except.error storeErrMsg, r,
       (List.range 10).map fun k => randomSlug (rngShift rng (8 * k))) := by
  have h := storeAux_all_occupied rng target 10 0 r [] hg
    (fun k hk => by simpa using hocc k hk)
  simpa using h

/-- Witness for C1: with the constant-zero oracle every attempt draws
the slug made of eight letters a, and a store holding that one primary
key makes all 10 attempts collide. -/
theorem claim1_witness :
    store (fun _ => 0)
        ⟨[("url:aaaaaaaa", ⟨RVal.str "x", some default_ttl⟩)], []⟩ "tgt" =
      (Except.error storeErrMsg,
       ⟨[("url:aaaaaaaa", ⟨RVal.str "x", some default_ttl⟩)], []⟩,
       (List.range 10).map fun k => randomSlug (rngShift (fun _ => 0) (8 * k))) :=
  claim1_store_exhaustion (fun _ => 0) _ "tgt" rfl (by decide)

/-- C5 counterexample: schedule a transport failure (BackendUnavailable)
for the first set-if-absent round trip against an empty store. The
claim says such an error is never retried and is surfaced to the
caller; instead `store` logs the failed attempt like a collision,
retries with a second generated slug, and returns success — the backend
error is consumed by the collision loop. -/
theorem claim5_counterexample :
    (store (fun _ => 0) ⟨[], [true]⟩ "tgt").1 =
        Except.ok ⟨"aaaaaaaa", "tgt", 0, default_ttl⟩ ∧
    (store (fun _ => 0) ⟨[], [true]⟩ "tgt").2.2 = ["aaaaaaaa"] :=
  ⟨rfl, rfl⟩

/-- C5 (amended): `store` treats a backend error on an attempt exactly
like a collision — it logs the attempted slug and retries with a
freshly generated slug; when every one of the 10 attempts fails with a
backend error it returns the same allocation-exhausted error, never
surfacing BackendUnavailable. -/
theorem claim5_store_retries_backend_errors (rng : Nat → Nat) (r : Redis) (target : String)
    (hg : r.glitches = List.replicate 10 true) :
    store rng r target =
      (Except.error storeErrMsg, { r with glitches := [] },
       (List.range 10).map fun k => randomSlug (rngShift rng (8 * k))) := by
  have h := storeAux_all_glitch rng target 10 0 r [] hg
  simpa using h

/-- Witness for C5 (amended) at a concrete schedule of 10 transport
failures against an empty store. -/
theorem claim5_witness :
    store (fun _ => 0) ⟨[], List.replicate 10 true⟩ "tgt" =
      (Except.error storeErrMsg, ⟨[], []⟩,
       (List.range 10).map fun k => randomSlug (rngShift (fun _ => 0) (8 * k))) :=
  claim5_store_retries_backend_errors (fun _ => 0) ⟨[], List.replicate 10 true⟩ "tgt" rfl

/-- C7 counterexample: the claim calls the alphabet a 61-symbol set, but
the alphabet defined by `runes` in the code has 58 symbols
(26 + 26 + 10 minus the four excluded characters i, o, I, O). -/
theorem claim7_counterexample : runes.toList.length = 58 ∧ runes.toList.length ≠ 61 := by
  decide

/-- C7 (amended): every call of the slug generator returns a string of
length exactly 8 whose every character is a member of the defined
58-symbol alphabet; the alphabet never contains i, I, o, O, so every
generated slug also satisfies `slugIsValid`. -/
theorem claim7_randomSlug_valid (rng : Nat → Nat) :
    (randomSlug rng).length = 8 ∧
    (∀ c ∈ (randomSlug rng).toList, c ∈ runes.toList) ∧
    ('i' ∉ runes.toList ∧ 'I' ∉ runes.toList ∧ 'o' ∉ runes.toList ∧ 'O' ∉ runes.toList) ∧
    runes.toList.length = 58 ∧
    slugIsValid (randomSlug rng) = true := by
  refine ⟨randomSlug_length rng, fun c hc => randomSlug_mem_runes rng c hc,
    by decide, by decide, ?_⟩
  exact (slugIsValid_iff _).mpr fun c hc => randomSlug_mem_runes rng c hc

/-- Witness for C7 at a concrete oracle: the constant-zero oracle yields
an 8-character slug whose first character is in the alphabet. -/
theorem claim7_witness :
    (randomSlug (fun _ => 0)).length = 8 ∧ 'a' ∈ runes.toList :=
  ⟨(claim7_randomSlug_valid (fun _ => 0)).1,
   (claim7_randomSlug_valid (fun _ => 0)).2.1 'a' (by decide)⟩

/-- C8: `slugIsValid` returns true iff every character of the candidate
is in the alphabet; any string containing the namespace separator is
rejected; the empty string and strings of length other than 8 are not
rejected on those grounds. -/
theorem claim8_slugIsValid_spec :
    (∀ s, slugIsValid s = true ↔ ∀ c ∈ s.toList, c ∈ runes.toList) ∧
    (∀ s, ':' ∈ s.toList → slugIsValid s = false) ∧
    slugIsValid "" = true ∧
    slugIsValid "abc" = true ∧
    slugIsValid "abcdefghj" = true := by
  refine ⟨slugIsValid_iff, fun s h => ?_, by decide, by decide, by decide⟩
  simp only [slugIsValid]
  rw [List.all_eq_false]
  exact ⟨':', h, by decide⟩

/-- Witness for C8 at concrete inputs: a valid 8-character slug is
accepted and a string containing the separator is rejected. -/
theorem claim8_witness :
    slugIsValid "abcdefgh" = true ∧ slugIsValid "a:b" = false :=
  ⟨(claim8_slugIsValid_spec.1 "abcdefgh").mpr (by decide),
   claim8_slugIsValid_spec.2.1 "a:b" (by decide)⟩

/-- C2: on a healthy backend whose counter keys are well-formed,
`getDetailsOfKey` fails with NotFound (`redis.Nil`) iff the primary key
is absent; when the primary key exists it returns the stored target, the
counter key's value with an absent counter read as 0 (`clicksOf`), and
the primary key's remaining TTL. -/
theorem claim2_get_details (r : Redis) (slug : String)
    (hg : r.glitches = []) (hctr : CounterInvD r.data) :
    ((getDetailsOfKey r slug).1 = Except.error RErr.nilReply ↔
        rget r.data (keyOfSlug slug) = none) ∧
    (∀ e, rget r.data (keyOfSlug slug) = some e →
      (getDetailsOfKey r slug).1 =
        Except.ok ⟨slug, e.val.toStr, clicksOf r slug,
          ttlData r.data (keyOfSlug slug)⟩) := by
  have hs := getDetails_spec r slug hctr (by simp [hg])
  constructor
  · rw [hs]
    cases hmain : rget r.data (keyOfSlug slug) <;> simp [hmain]
  · intro e he
    rw [hs]
    simp [he, clicksOf]

/-- Witness for C2 on a concrete one-record store: the existing slug is
read back with clicks 0, and a missing slug yields NotFound. -/
theorem claim2_witness :
    (getDetailsOfKey oneSlugState "abcdefgh").1 =
        Except.ok ⟨"abcdefgh", "http://example.com", 0, default_ttl⟩ ∧
    (getDetailsOfKey oneSlugState "missing0").1 = Except.error RErr.nilReply := by
  constructor
  · have h := (claim2_get_details oneSlugState "abcdefgh" rfl counterInvD_oneSlug).2
      ⟨RVal.str "http://example.com", some default_ttl⟩ rfl
    simpa using h
  · exact (claim2_get_details oneSlugState "missing0" rfl counterInvD_oneSlug).1.mpr rfl

/-- C6 counterexample: on a store holding one primary key and no counter
key, the supposedly side-effect-free `getDetailsOfKey` changes the
backing store: its pipelined `IncrBy(counter, 0)` creates the counter
key (with value 0 and no TTL) where none existed. -/
theorem claim6_counterexample :
    rget oneSlugState.data (keyOfSlugHitCount "abcdefgh") = none ∧
    (getDetailsOfKey oneSlugState "abcdefgh").2 ≠ oneSlugState ∧
    rget (getDetailsOfKey oneSlugState "abcdefgh").2.data
        (keyOfSlugHitCount "abcdefgh") = some ⟨RVal.int 0, none⟩ := by
  refine ⟨rfl, ?_, rfl⟩
  decide

/-- C6 (amended): on a healthy backend with well-formed counters,
`getDetailsOfKey` does not increment the hit counter, does not refresh
any TTL, and leaves every key other than the inspected slug's counter
key untouched; however, if that counter key is absent it is created
with value 0 and no TTL (an observable state change), and if present it
is left exactly as it was. -/
theorem claim6_get_effect (r : Redis) (slug : String)
    (hg : r.glitches = []) (hctr : CounterInvD r.data) :
    (∀ k, k ≠ keyOfSlugHitCount slug →
        rget (getDetailsOfKey r slug).2.data k = rget r.data k) ∧
    (∀ s, clicksOfD (getDetailsOfKey r slug).2.data s = clicksOfD r.data s) ∧
    (∀ e, rget r.data (keyOfSlugHitCount slug) = some e →
        rget (getDetailsOfKey r slug).2.data (keyOfSlugHitCount slug) = some e) ∧
    (rget r.data (keyOfSlugHitCount slug) = none →
        rget (getDetailsOfKey r slug).2.data (keyOfSlugHitCount slug) =
          some ⟨RVal.int 0, none⟩) ∧
    (getDetailsOfKey r slug).2.glitches = r.glitches := by
  have hs := getDetails_spec r slug hctr (by simp [hg])
  rw [hs]
  refine ⟨fun k hk => rget_rset_ne _ _ _ _ (Ne.symm hk), fun s => ?_, fun e he => ?_,
    fun hnone => ?_, by simp [hg]⟩
  · by_cases hss : s = slug
    · subst hss
      rcases hcase : rget r.data (keyOfSlugHitCount s) with _ | e
      · simp [clicksOfD, rget_rset_self, hcase]
      · obtain ⟨n, t, he, hn⟩ := hctr s e hcase
        subst he
        simp [clicksOfD, rget_rset_self, hcase]
    · have hne : keyOfSlugHitCount slug ≠ keyOfSlugHitCount s :=
        fun heq => hss (keyOfSlugHitCount_inj _ _ heq).symm
      simp [clicksOfD, rget_rset_ne _ _ _ _ hne]
  · obtain ⟨n, t, he2, hn⟩ := hctr slug e he
    subst he2
    simp [rget_rset_self, clicksOfD, he]
  · simp [rget_rset_self, clicksOfD, hnone]

/-- Witness for C6 (amended) on the concrete one-record store: the
primary key is untouched and the absent counter key is created at 0. -/
theorem claim6_witness :
    rget (getDetailsOfKey oneSlugState "abcdefgh").2.data (keyOfSlug "abcdefgh") =
        rget oneSlugState.data (keyOfSlug "abcdefgh") ∧
    rget (getDetailsOfKey oneSlugState "abcdefgh").2.data
        (keyOfSlugHitCount "abcdefgh") = some ⟨RVal.int 0, none⟩ :=
  ⟨(claim6_get_effect oneSlugState "abcdefgh" rfl counterInvD_oneSlug).1
      (keyOfSlug "abcdefgh") (keyOfSlug_ne_hitCount _ _),
   (claim6_get_effect oneSlugState "abcdefgh" rfl counterInvD_oneSlug).2.2.2.1 rfl⟩

theorem recordHit_spec (r : Redis) (slug : String) (e : Entry)
    (hg : r.glitches = []) (hctr : CounterInvD r.data)
    (hmain : rget r.data (keyOfSlug slug) = some e) :
    (recordHit r slug).1 = Except.ok (e.val.toStr, clicksOfD r.data slug + 1) ∧
    (recordHit r slug).2.glitches = [] ∧
    rget (recordHit r slug).2.data (keyOfSlugHitCount slug) =
      some ⟨RVal.int (clicksOfD r.data slug + 1), some default_ttl⟩ ∧
    rget (recordHit r slug).2.data (keyOfSlug slug) = some ⟨e.val, some default_ttl⟩ ∧
    (∀ k, k ≠ keyOfSlug slug → k ≠ keyOfSlugHitCount slug →
      rget (recordHit r slug).2.data k = rget r.data k) := by
  obtain ⟨d, gl⟩ := r
  simp only at hctr hmain
  subst hg
  have hne : keyOfSlugHitCount slug ≠ keyOfSlug slug :=
    Ne.symm (keyOfSlug_ne_hitCount slug slug)
  have hget : getData d (keyOfSlug slug) = Except.ok e.val.toStr := by
    simp [getData, hmain]
  rcases hcase : rget d (keyOfSlugHitCount slug) with _ | e2
  case none =>
    have hclicks : clicksOfD d slug = 0 := by simp [clicksOfD, hcase]
    have hincr : incrByData d (keyOfSlugHitCount slug) 1 =
        Except.ok (1, rset d (keyOfSlugHitCount slug) ⟨RVal.int 1, none⟩) := by
      simp [incrByData, hcase]
    have hg3 : rget (rset d (keyOfSlugHitCount slug) ⟨RVal.int 1, none⟩)
        (keyOfSlugHitCount slug) = some ⟨RVal.int 1, none⟩ := rget_rset_self _ _ _
    have hexp1 : expireData (rset d (keyOfSlugHitCount slug) ⟨RVal.int 1, none⟩)
        (keyOfSlugHitCount slug) default_ttl =
        (true, rset (rset d (keyOfSlugHitCount slug) ⟨RVal.int 1, none⟩)
          (keyOfSlugHitCount slug) ⟨RVal.int 1, some default_ttl⟩) := by
      simp [expireData, hg3]
    have hg4 : rget (rset (rset d (keyOfSlugHitCount slug) ⟨RVal.int 1, none⟩)
        (keyOfSlugHitCount slug) ⟨RVal.int 1, some default_ttl⟩) (keyOfSlug slug) =
        some e := by
      rw [rget_rset_ne _ _ _ _ hne, rget_rset_ne _ _ _ _ hne]
      exact hmain
    have hexp2 : expireData (rset (rset d (keyOfSlugHitCount slug) ⟨RVal.int 1, none⟩)
        (keyOfSlugHitCount slug) ⟨RVal.int 1, some default_ttl⟩)
        (keyOfSlug slug) default_ttl =
        (true, rset (rset (rset d (keyOfSlugHitCount slug) ⟨RVal.int 1, none⟩)
          (keyOfSlugHitCount slug) ⟨RVal.int 1, some default_ttl⟩)
          (keyOfSlug slug) ⟨e.val, some default_ttl⟩) := by
      simp [expireData, hg4]
    have hbody : recordHit ⟨d, []⟩ slug =
        (Except.ok (e.val.toStr, 1),
         ⟨rset (rset (rset d (keyOfSlugHitCount slug) ⟨RVal.int 1, none⟩)
            (keyOfSlugHitCount slug) ⟨RVal.int 1, some default_ttl⟩)
            (keyOfSlug slug) ⟨e.val, some default_ttl⟩, []⟩) := by
      simp [recordHit, tick, hget, hincr, hexp1, hexp2]
    rw [hbody, hclicks]
    dsimp only
    refine ⟨by simp, rfl, ?_, rget_rset_self _ _ _, fun k hk1 hk2 => ?_⟩
    · rw [rget_rset_ne _ _ _ _ (keyOfSlug_ne_hitCount slug slug), rget_rset_self]
      simp
    · rw [rget_rset_ne _ _ _ _ (Ne.symm hk1), rget_rset_ne _ _ _ _ (Ne.symm hk2),
        rget_rset_ne _ _ _ _ (Ne.symm hk2)]
  case some =>
    obtain ⟨n, t, he2, hn⟩ := hctr slug e2 hcase
    subst he2
    have hclicks : clicksOfD d slug = n := by simp [clicksOfD, hcase]
    have hincr : incrByData d (keyOfSlugHitCount slug) 1 =
        Except.ok (n + 1, rset d (keyOfSlugHitCount slug) ⟨RVal.int (n + 1), t⟩) := by
      simp [incrByData, hcase]
    have hg3 : rget (rset d (keyOfSlugHitCount slug) ⟨RVal.int (n + 1), t⟩)
        (keyOfSlugHitCount slug) = some ⟨RVal.int (n + 1), t⟩ := rget_rset_self _ _ _
    have hexp1 : expireData (rset d (keyOfSlugHitCount slug) ⟨RVal.int (n + 1), t⟩)
        (keyOfSlugHitCount slug) default_ttl =
        (true, rset (rset d (keyOfSlugHitCount slug) ⟨RVal.int (n + 1), t⟩)
          (keyOfSlugHitCount slug) ⟨RVal.int (n + 1), some default_ttl⟩) := by
      simp [expireData, hg3]
    have hg4 : rget (rset (rset d (keyOfSlugHitCount slug) ⟨RVal.int (n + 1), t⟩)
        (keyOfSlugHitCount slug) ⟨RVal.int (n + 1), some default_ttl⟩)
        (keyOfSlug slug) = some e := by
      rw [rget_rset_ne _ _ _ _ hne, rget_rset_ne _ _ _ _ hne]
      exact hmain
    have hexp2 : expireData (rset (rset d (keyOfSlugHitCount slug) ⟨RVal.int (n + 1), t⟩)
        (keyOfSlugHitCount slug) ⟨RVal.int (n + 1), some default_ttl⟩)
        (keyOfSlug slug) default_ttl =
        (true, rset (rset (rset d (keyOfSlugHitCount slug) ⟨RVal.int (n + 1), t⟩)
          (keyOfSlugHitCount slug) ⟨RVal.int (n + 1), some default_ttl⟩)
          (keyOfSlug slug) ⟨e.val, some default_ttl⟩) := by
      simp [expireData, hg4]
    have hbody : recordHit ⟨d, []⟩ slug =
        (Except.ok (e.val.toStr, n + 1),
         ⟨rset (rset (rset d (keyOfSlugHitCount slug) ⟨RVal.int (n + 1), t⟩)
            (keyOfSlugHitCount slug) ⟨RVal.int (n + 1), some default_ttl⟩)
            (keyOfSlug slug) ⟨e.val, some default_ttl⟩, []⟩) := by
      simp [recordHit, tick, hget, hincr, hexp1, hexp2]
    rw [hbody, hclicks]
    dsimp only
    refine ⟨rfl, rfl, ?_, rget_rset_self _ _ _, fun k hk1 hk2 => ?_⟩
    · rw [rget_rset_ne _ _ _ _ (keyOfSlug_ne_hitCount slug slug), rget_rset_self]
    · rw [rget_rset_ne _ _ _ _ (Ne.symm hk1), rget_rset_ne _ _ _ _ (Ne.symm hk2),
        rget_rset_ne _ _ _ _ (Ne.symm hk2)]

/-- C3: on a healthy backend with well-formed counters, the resolve path
increments the counter key of the slug by exactly 1 (an absent counter
counts as 0, so the first hit yields count 1), returns the new count
alongside the redirect target, and refreshes the TTL of both the primary
key and the counter key back to the default window. -/
theorem claim3_resolve_increments (r : Redis) (slug : String) (e : Entry)
    (hg : r.glitches = []) (hctr : CounterInvD r.data)
    (hmain : rget r.data (keyOfSlug slug) = some e) :
    (recordHit r slug).1 = Except.ok (e.val.toStr, clicksOf r slug + 1) ∧
    rget (recordHit r slug).2.data (keyOfSlugHitCount slug) =
      some ⟨RVal.int (clicksOf r slug + 1), some default_ttl⟩ ∧
    rget (recordHit r slug).2.data (keyOfSlug slug) = some ⟨e.val, some default_ttl⟩ ∧
    (rget r.data (keyOfSlugHitCount slug) = none → clicksOf r slug + 1 = 1) ∧
    (∀ k, k ≠ keyOfSlug slug → k ≠ keyOfSlugHitCount slug →
      rget (recordHit r slug).2.data k = rget r.data k) := by
  obtain ⟨h1, _, h3, h4, h5⟩ := recordHit_spec r slug e hg hctr hmain
  refine ⟨h1, h3, h4, fun habs => ?_, h5⟩
  simp [clicksOf, clicksOfD, habs]

/-- Witness for C3 on the concrete one-record store: the first hit
returns count 1 and leaves the counter key at 1 with a fresh TTL. -/
theorem claim3_witness :
    (recordHit oneSlugState "abcdefgh").1 = Except.ok ("http://example.com", 1) ∧
    rget (recordHit oneSlugState "abcdefgh").2.data (keyOfSlugHitCount "abcdefgh") =
      some ⟨RVal.int 1, some default_ttl⟩ := by
  have h := claim3_resolve_increments oneSlugState "abcdefgh"
    ⟨RVal.str "http://example.com", some default_ttl⟩ rfl counterInvD_oneSlug rfl
  have hc : clicksOf oneSlugState "abcdefgh" = 0 := rfl
  rw [hc] at h
  exact ⟨h.1, h.2.1⟩


theorem counterInvD_rset_prim (d : List (String × Entry)) (slug : String) (v : Entry)
    (h : CounterInvD d) : CounterInvD (rset d (keyOfSlug slug) v) := by
  intro s e he
  rw [rget_rset_ne _ _ _ _ (keyOfSlug_ne_hitCount slug s)] at he
  exact h s e he

theorem clicksOfD_rset_prim (d : List (String × Entry)) (slug : String) (v : Entry)
    (s : String) : clicksOfD (rset d (keyOfSlug slug) v) s = clicksOfD d s := by
  simp [clicksOfD, rget_rset_ne _ _ _ _ (keyOfSlug_ne_hitCount slug s)]

theorem setNX_shape (r : Redis) (k v : String) (t : Duration) :
    (setNX r k v t).2.glitches = r.glitches.tail ∧
    ((setNX r k v t).1 = Except.ok true →
      rget r.data k = none ∧
      (setNX r k v t).2.data = rset r.data k ⟨RVal.str v, some t⟩) ∧
    ((setNX r k v t).1 ≠ Except.ok true → (setNX r k v t).2.data = r.data) := by
  obtain ⟨d, gl⟩ := r
  rcases gl with _ | ⟨g, gs⟩
  · rcases hmain : rget d k with _ | e0 <;> simp [setNX, tick, hmain]
  · cases g
    · rcases hmain : rget d k with _ | e0 <;> simp [setNX, tick, hmain]
    · simp [setNX, tick]

theorem storeAux_ok (rng : Nat → Nat) (target : String) :
    ∀ (fuel off : Nat) (r : Redis) (log : List String) (su : ShortUrl)
      (r2 : Redis) (lg : List String),
      storeAux rng target fuel off r log = (Except.ok su, r2, lg) →
      su.Target = target ∧ su.Clicks = 0 ∧ su.Ttl = default_ttl ∧
      rget r.data (keyOfSlug su.Slug) = none ∧
      r2.data = rset r.data (keyOfSlug su.Slug) ⟨RVal.str target, some default_ttl⟩ ∧
      (r.glitches = [] → r2.glitches = []) := by
  intro fuel
  induction fuel with
  | zero =>
    intro off r log su r2 lg h
    simp [storeAux] at h
  | succ n ih =>
    intro off r log su r2 lg h
    rw [storeAux] at h
    rcases hnx : setNX r (keyOfSlug (randomSlug (rngShift rng off))) target default_ttl
      with ⟨res, r1⟩
    have hshape := setNX_shape r (keyOfSlug (randomSlug (rngShift rng off))) target default_ttl
    rw [hnx] at h hshape
    dsimp only at h hshape
    rcases res with e | b
    · have hres := ih (off + 8) r1 (log ++ [randomSlug (rngShift rng off)]) su r2 lg h
      have hdata : r1.data = r.data := hshape.2.2 (by simp)
      refine ⟨hres.1, hres.2.1, hres.2.2.1, hdata ▸ hres.2.2.2.1,
        hdata ▸ hres.2.2.2.2.1, fun hnil => hres.2.2.2.2.2 ?_⟩
      rw [hshape.1, hnil]
      rfl
    · cases b
      · have hres := ih (off + 8) r1 (log ++ [randomSlug (rngShift rng off)]) su r2 lg h
        have hdata : r1.data = r.data := hshape.2.2 (by simp)
        refine ⟨hres.1, hres.2.1, hres.2.2.1, hdata ▸ hres.2.2.2.1,
          hdata ▸ hres.2.2.2.2.1, fun hnil => hres.2.2.2.2.2 ?_⟩
        rw [hshape.1, hnil]
        rfl
      · obtain ⟨hmain, hdata⟩ := hshape.2.1 rfl
        simp only [Prod.mk.injEq, Except.ok.injEq] at h
        obtain ⟨hsu, hr2, hlg⟩ := h
        subst hsu
        subst hr2
        exact ⟨rfl, rfl, rfl, hmain, hdata, fun hnil => by rw [hshape.1, hnil]; rfl⟩

/-- C4: from a healthy state satisfying the store invariant, a successful
`store target` returns a ShortUrl with Clicks 0 and Ttl the configured
default, and an immediately following `getDetailsOfKey` of the returned
slug returns a record with Target equal to the stored target and
Clicks 0. -/
theorem claim4_create_roundtrip (rng : Nat → Nat) (r : Redis) (target : String)
    (su : ShortUrl) (r2 : Redis) (lg : List String)
    (hg : r.glitches = []) (hinv : StoreInv r)
    (h : store rng r target = (Except.ok su, r2, lg)) :
    su.Clicks = 0 ∧ su.Ttl = default_ttl ∧ su.Target = target ∧
    ∃ d2, (getDetailsOfKey r2 su.Slug).1 = Except.ok d2 ∧
      d2.Target = target ∧ d2.Clicks = 0 := by
  obtain ⟨hT, hC, hTtl, hmain, hdata, hglf⟩ := storeAux_ok rng target 10 0 r [] su r2 lg h
  have hg2 : r2.glitches = [] := hglf hg
  have hctr2 : CounterInvD r2.data := by
    rw [hdata]
    exact counterInvD_rset_prim _ _ _ hinv.1
  have hclicks : clicksOfD r2.data su.Slug = 0 := by
    rw [hdata, clicksOfD_rset_prim]
    exact hinv.2 su.Slug hmain
  have hprim2 : rget r2.data (keyOfSlug su.Slug) =
      some ⟨RVal.str target, some default_ttl⟩ := by
    rw [hdata]
    exact rget_rset_self _ _ _
  have hs := getDetails_spec r2 su.Slug hctr2 (by simp [hg2])
  refine ⟨hC, hTtl, hT,
    ⟨⟨su.Slug, target, 0, ttlData r2.data (keyOfSlug su.Slug)⟩, ?_, rfl, rfl⟩⟩
  rw [hs]
  simp [hprim2, hclicks, RVal.toStr]

/-- Witness for C4: creating in the empty store with the constant-zero
oracle succeeds at the first attempt, and reading the new slug back
yields its target and zero clicks. -/
theorem claim4_witness :
    ∃ d2, (getDetailsOfKey
        ⟨[("url:aaaaaaaa", ⟨RVal.str "t", some default_ttl⟩)], []⟩ "aaaaaaaa").1 =
      Except.ok d2 ∧ d2.Target = "t" ∧ d2.Clicks = 0 :=
  (claim4_create_roundtrip (fun _ => 0) ⟨[], []⟩ "t" ⟨"aaaaaaaa", "t", 0, default_ttl⟩
    ⟨[("url:aaaaaaaa", ⟨RVal.str "t", some default_ttl⟩)], []⟩ [] rfl
    ⟨counterInvD_nil, freshInvD_nil⟩ rfl).2.2.2

theorem tick_data (r : Redis) : (tick r).2.data = r.data := by
  cases h : r.glitches <;> simp [tick, h]

theorem getDetails_ok_slug (r : Redis) (s : String) (su : ShortUrl) (r1 : Redis)
    (h : getDetailsOfKey r s = (Except.ok su, r1)) : su.Slug = s := by
  simp only [getDetailsOfKey] at h
  split at h
  · simp at h
  · split at h
    · simp at h
    · simp at h
    · rename_i tv cd heq
      simp only [Prod.mk.injEq, Except.ok.injEq] at h
      rw [← h.1]

theorem sampleGo_length (keys : List String) :
    ∀ (r : Redis) (acc : List ShortUrl),
      (sampleGo keys r acc).1.length ≤ acc.length + keys.length := by
  induction keys with
  | nil => intro r acc; simp [sampleGo]
  | cons k ks ih =>
    intro r acc
    rcases hs : slugFromKey k with e | slug
    · rw [sampleGo, hs]
      dsimp only
      exact le_trans (ih r acc) (by simp only [List.length_cons]; omega)
    · rcases hg : getDetailsOfKey r slug with ⟨res, r1⟩
      rcases res with e | su
      · rw [sampleGo, hs]
        dsimp only
        rw [hg]
        dsimp only
        exact le_trans (ih r1 acc) (by simp only [List.length_cons]; omega)
      · rw [sampleGo, hs]
        dsimp only
        rw [hg]
        dsimp only
        refine le_trans (ih r1 (acc ++ [su])) ?_
        simp only [List.length_append, List.length_cons, List.length_nil]
        omega

theorem sampleGo_mem (keys : List String) :
    ∀ (r : Redis) (acc : List ShortUrl) (su : ShortUrl),
      su ∈ (sampleGo keys r acc).1 →
      su ∈ acc ∨ ∃ k, k ∈ keys ∧ slugFromKey k = Except.ok su.Slug := by
  induction keys with
  | nil =>
    intro r acc su h
    exact Or.inl (by simpa [sampleGo] using h)
  | cons k ks ih =>
    intro r acc su h
    rcases hs : slugFromKey k with e | slug
    · rw [sampleGo, hs] at h
      dsimp only at h
      rcases ih r acc su h with hl | ⟨k2, hk2, hok⟩
      · exact Or.inl hl
      · exact Or.inr ⟨k2, List.mem_cons_of_mem _ hk2, hok⟩
    · rcases hg : getDetailsOfKey r slug with ⟨res, r1⟩
      rcases res with e | su2
      · rw [sampleGo, hs] at h
        dsimp only at h
        rw [hg] at h
        dsimp only at h
        rcases ih r1 acc su h with hl | ⟨k2, hk2, hok⟩
        · exact Or.inl hl
        · exact Or.inr ⟨k2, List.mem_cons_of_mem _ hk2, hok⟩
      · rw [sampleGo, hs] at h
        dsimp only at h
        rw [hg] at h
        dsimp only at h
        rcases ih r1 (acc ++ [su2]) su h with hl | ⟨k2, hk2, hok⟩
        · rcases List.mem_append.mp hl with hl2 | hl2
          · exact Or.inl hl2
          · have hsu : su = su2 := by simpa using hl2
            subst hsu
            have hslug : su.Slug = slug := getDetails_ok_slug r slug su r1 hg
            exact Or.inr ⟨k, List.mem_cons_self _ _, hslug ▸ hs⟩
        · exact Or.inr ⟨k2, List.mem_cons_of_mem _ hk2, hok⟩

/-- C10: `sampleExisting` returns at most 10 records from one scan of
the primary-key namespace; on an empty store it returns an empty
sequence (its return type admits no error); each returned record's slug
is derived from a scanned primary key by `slugFromKey` (inverting the
"url:"+slug layout); and an entry whose read fails is silently skipped
while the enumeration continues with the remaining keys. -/
theorem claim10_sample_enumeration :
    (∀ r, (sampleExisting r).1.length ≤ 10) ∧
    (∀ r, r.data = [] → (sampleExisting r).1 = []) ∧
    (∀ r su, su ∈ (sampleExisting r).1 →
      ∃ k, k ∈ scanData r.data (keyOfSlug "*") 10 ∧
        slugFromKey k = Except.ok su.Slug) ∧
    (∀ k ks r acc slug e r1, slugFromKey k = Except.ok slug →
      getDetailsOfKey r slug = (Except.error e, r1) →
      sampleGo (k :: ks) r acc = sampleGo ks r1 acc) := by
  refine ⟨fun r => ?_, fun r hdata => ?_, fun r su hmem => ?_,
    fun k ks r acc slug e r1 hs hf => ?_⟩
  · rw [sampleExisting]
    rcases htick : tick r with ⟨g, r1⟩
    cases g
    · dsimp only
      refine le_trans (sampleGo_length _ r1 []) ?_
      have hlen : (scanData r1.data (keyOfSlug "*") 10).length ≤ 10 := by
        simp only [scanData]
        exact le_trans (List.length_take_le _ _) (le_refl _)
      simpa using hlen
    · simp
  · rw [sampleExisting]
    rcases htick : tick r with ⟨g, r1⟩
    have hd1 : r1.data = [] := by
      have := tick_data r
      rw [htick] at this
      rw [this, hdata]
    cases g
    · dsimp only
      rw [hd1]
      simp [scanData, sampleGo]
    · simp
  · rw [sampleExisting] at hmem
    rcases htick : tick r with ⟨g, r1⟩
    rw [htick] at hmem
    have hd1 : r1.data = r.data := by
      have := tick_data r
      rw [htick] at this
      exact this
    cases g
    · dsimp only at hmem
      rcases sampleGo_mem _ r1 [] su hmem with hl | ⟨k, hk, hok⟩
      · simp at hl
      · exact ⟨k, hd1 ▸ hk, hok⟩
    · simp at hmem
  · simp [sampleGo, hs, hf]

/-- Witness for C10 at concrete inputs: the empty store yields the empty
sample, and a key whose read fails (primary key vanished) is skipped
while the loop continues. -/
theorem claim10_witness :
    (sampleExisting ⟨[], []⟩).1 = [] ∧
    sampleGo ["url:abcdefgh"] ⟨[], []⟩ [] =
      sampleGo [] ⟨[("urlhitcount:abcdefgh", ⟨RVal.int 0, none⟩)], []⟩ [] :=
  ⟨claim10_sample_enumeration.2.1 ⟨[], []⟩ rfl,
   claim10_sample_enumeration.2.2.2 "url:abcdefgh" [] ⟨[], []⟩ [] "abcdefgh"
     RErr.nilReply ⟨[("urlhitcount:abcdefgh", ⟨RVal.int 0, none⟩)], []⟩ rfl rfl⟩

theorem clicksOfD_nonneg (d : List (String × Entry)) (s : String)
    (hctr : CounterInvD d) : 0 ≤ clicksOfD d s := by
  rcases hcase : rget d (keyOfSlugHitCount s) with _ | e
  · simp [clicksOfD, hcase]
  · obtain ⟨n, t, he, hn⟩ := hctr s e hcase
    subst he
    simpa [clicksOfD, hcase] using hn

theorem rget_rset_none (d : List (String × Entry)) (k : String) (e : Entry)
    (k2 : String) (h : rget (rset d k e) k2 = none) : rget d k2 = none := by
  by_cases hk : k = k2
  · subst hk
    rw [rget_rset_self] at h
    exact absurd h (by simp)
  · rwa [rget_rset_ne _ _ _ _ hk] at h

theorem rget_expireData (d : List (String × Entry)) (k : String) (t : Duration)
    (k2 : String) :
    rget (expireData d k t).2 k2 =
      if k2 = k then (rget d k).map (fun e => ⟨e.val, some t⟩) else rget d k2 := by
  rcases hk : rget d k with _ | e
  · simp only [expireData, hk]
    split
    · rename_i hk2
      subst hk2
      simp [hk]
    · rfl
  · simp only [expireData, hk]
    split
    · rename_i hk2
      subst hk2
      simp [rget_rset_self]
    · rename_i hk2
      exact rget_rset_ne _ _ _ _ (fun hkk => hk2 hkk.symm)

theorem clicksOfD_expire (d : List (String × Entry)) (k : String) (t : Duration)
    (s : String) : clicksOfD (expireData d k t).2 s = clicksOfD d s := by
  by_cases hks : keyOfSlugHitCount s = k
  · subst hks
    rcases hcase : rget d (keyOfSlugHitCount s) with _ | e
    · simp [expireData, hcase]
    · rcases e with ⟨v, t2⟩
      simp only [expireData, hcase]
      cases v <;> simp [clicksOfD, rget_rset_self, hcase]
  · have hsame : rget (expireData d k t).2 (keyOfSlugHitCount s) =
        rget d (keyOfSlugHitCount s) := by
      rw [rget_expireData]
      simp [hks]
    simp [clicksOfD, hsame]

theorem counterInvD_expire (d : List (String × Entry)) (k : String) (t : Duration)
    (hctr : CounterInvD d) : CounterInvD (expireData d k t).2 := by
  intro s e he
  rw [rget_expireData] at he
  by_cases hks : keyOfSlugHitCount s = k
  · rw [if_pos hks] at he
    rcases hk : rget d k with _ | e2
    · rw [hk] at he
      exact absurd he (by simp)
    · rw [hk] at he
      obtain ⟨n, t2, hee, hn⟩ := hctr s e2 (by rw [hks]; exact hk)
      subst hee
      refine ⟨n, some t, ?_, hn⟩
      simpa using he.symm
  · rw [if_neg hks] at he
    exact hctr s e he

theorem rget_expire_none (d : List (String × Entry)) (k : String) (t : Duration)
    (k2 : String) (h : rget (expireData d k t).2 k2 = none) : rget d k2 = none := by
  rw [rget_expireData] at h
  by_cases hk2 : k2 = k
  · rw [if_pos hk2] at h
    subst hk2
    rcases hk : rget d k2 with _ | e
    · rfl
    · rw [hk] at h
      exact absurd h (by simp)
  · rwa [if_neg hk2] at h

theorem counterInvD_rset_ctr (d : List (String × Entry)) (k : String) (n : Int)
    (t : Option Duration) (hctr : CounterInvD d) (hn : 0 ≤ n) :
    CounterInvD (rset d k ⟨RVal.int n, t⟩) := by
  intro s e he
  by_cases hks : k = keyOfSlugHitCount s
  · subst hks
    rw [rget_rset_self] at he
    exact ⟨n, t, (Option.some.inj he).symm, hn⟩
  · rw [rget_rset_ne _ _ _ _ hks] at he
    exact hctr s e he

theorem clicksOfD_rset_ctr_self (d : List (String × Entry)) (slug : String)
    (n : Int) (t : Option Duration) :
    clicksOfD (rset d (keyOfSlugHitCount slug) ⟨RVal.int n, t⟩) slug = n := by
  simp [clicksOfD, rget_rset_self]

theorem clicksOfD_rset_ctr_ne (d : List (String × Entry)) (slug : String)
    (n : Int) (t : Option Duration) (s : String) (h : s ≠ slug) :
    clicksOfD (rset d (keyOfSlugHitCount slug) ⟨RVal.int n, t⟩) s = clicksOfD d s := by
  have hne : keyOfSlugHitCount slug ≠ keyOfSlugHitCount s :=
    fun heq => h (keyOfSlugHitCount_inj _ _ heq).symm
  simp [clicksOfD, rget_rset_ne _ _ _ _ hne]

theorem incrByData_ctr_ok (d : List (String × Entry)) (slug : String)
    (hctr : CounterInvD d) :
    incrByData d (keyOfSlugHitCount slug) 1 =
      Except.ok (clicksOfD d slug + 1,
        rset d (keyOfSlugHitCount slug)
          ⟨RVal.int (clicksOfD d slug + 1),
           (rget d (keyOfSlugHitCount slug)).bind Entry.ttl⟩) := by
  rcases hcase : rget d (keyOfSlugHitCount slug) with _ | e
  · simp [incrByData, hcase, clicksOfD]
  · obtain ⟨n, t, he, hn⟩ := hctr slug e hcase
    subst he
    simp [incrByData, hcase, clicksOfD]

theorem freshInvD_of_evo (d dr : List (String × Entry)) (hfresh : FreshInvD d)
    (hc : ∀ s, clicksOfD dr s = clicksOfD d s)
    (hn : ∀ k, rget dr k = none → rget d k = none) : FreshInvD dr := by
  intro s hs
  rw [hc s]
  exact hfresh s (hn _ hs)


theorem expire2_preserves (d : List (String × Entry)) (k1 k2 : String) (t : Duration)
    (hctr : CounterInvD d) (hfresh : FreshInvD d) :
    CounterInvD (expireData (expireData d k1 t).2 k2 t).2 ∧
    FreshInvD (expireData (expireData d k1 t).2 k2 t).2 ∧
    (∀ s, clicksOfD (expireData (expireData d k1 t).2 k2 t).2 s = clicksOfD d s) := by
  refine ⟨counterInvD_expire _ _ _ (counterInvD_expire _ _ _ hctr), ?_, fun s => ?_⟩
  · refine freshInvD_of_evo d _ hfresh (fun s => ?_) (fun k h => ?_)
    · rw [clicksOfD_expire, clicksOfD_expire]
    · exact rget_expire_none _ _ _ _ (rget_expire_none _ _ _ _ h)
  · rw [clicksOfD_expire, clicksOfD_expire]

theorem hitIncr_preserves (d : List (String × Entry)) (slug : String) (e : Entry)
    (tt : Option Duration)
    (hprim : rget d (keyOfSlug slug) = some e)
    (hctr : CounterInvD d) (hfresh : FreshInvD d) :
    CounterInvD (rset d (keyOfSlugHitCount slug)
        ⟨RVal.int (clicksOfD d slug + 1), tt⟩) ∧
    FreshInvD (rset d (keyOfSlugHitCount slug)
        ⟨RVal.int (clicksOfD d slug + 1), tt⟩) ∧
    (∀ s, clicksOfD d s ≤ clicksOfD (rset d (keyOfSlugHitCount slug)
        ⟨RVal.int (clicksOfD d slug + 1), tt⟩) s) := by
  have hnn : 0 ≤ clicksOfD d slug + 1 := by
    have := clicksOfD_nonneg d slug hctr
    omega
  refine ⟨counterInvD_rset_ctr _ _ _ _ hctr hnn, fun s hs => ?_, fun s => ?_⟩
  · have hps : rget d (keyOfSlug s) = none := rget_rset_none _ _ _ _ hs
    by_cases hss : s = slug
    · subst hss
      rw [hprim] at hps
      exact absurd hps (by simp)
    · rw [clicksOfD_rset_ctr_ne _ _ _ _ _ hss]
      exact hfresh s hps
  · by_cases hss : s = slug
    · subst hss
      rw [clicksOfD_rset_ctr_self]
      omega
    · rw [clicksOfD_rset_ctr_ne _ _ _ _ _ hss]

theorem getDetails_preserves (r : Redis) (slug : String) (hctr : CounterInvD r.data) :
    CounterInvD (getDetailsOfKey r slug).2.data ∧
    (∀ s, clicksOfD (getDetailsOfKey r slug).2.data s = clicksOfD r.data s) ∧
    (∀ k, rget (getDetailsOfKey r slug).2.data k = none → rget r.data k = none) := by
  by_cases hh : r.glitches.head? = some true
  · rw [getDetails_glitch r slug hh]
    exact ⟨hctr, fun s => rfl, fun k h => h⟩
  · rw [getDetails_spec r slug hctr hh]
    dsimp only
    refine ⟨counterInvD_rset_ctr _ _ _ _ hctr (clicksOfD_nonneg _ _ hctr), fun s => ?_,
      fun k h => rget_rset_none _ _ _ _ h⟩
    by_cases hss : s = slug
    · subst hss
      rw [clicksOfD_rset_ctr_self]
    · rw [clicksOfD_rset_ctr_ne _ _ _ _ _ hss]

theorem storeAux_error_data (rng : Nat → Nat) (target : String) :
    ∀ (fuel off : Nat) (r : Redis) (log : List String) (msg : String)
      (r2 : Redis) (lg : List String),
      storeAux rng target fuel off r log = (Except.error msg, r2, lg) →
      r2.data = r.data := by
  intro fuel
  induction fuel with
  | zero =>
    intro off r log msg r2 lg h
    simp only [storeAux, Prod.mk.injEq] at h
    rw [← h.2.1]
  | succ n ih =>
    intro off r log msg r2 lg h
    rw [storeAux] at h
    rcases hnx : setNX r (keyOfSlug (randomSlug (rngShift rng off))) target default_ttl
      with ⟨res, r1⟩
    have hshape := setNX_shape r (keyOfSlug (randomSlug (rngShift rng off))) target default_ttl
    rw [hnx] at h hshape
    dsimp only at h hshape
    rcases res with e | b
    · rw [ih (off + 8) r1 _ msg r2 lg h]
      exact hshape.2.2 (by simp)
    · cases b
      · rw [ih (off + 8) r1 _ msg r2 lg h]
        exact hshape.2.2 (by simp)
      · simp at h

theorem store_preserves (rng : Nat → Nat) (r : Redis) (target : String)
    (hctr : CounterInvD r.data) (hfresh : FreshInvD r.data) :
    CounterInvD (store rng r target).2.1.data ∧
    FreshInvD (store rng r target).2.1.data ∧
    (∀ s, clicksOfD (store rng r target).2.1.data s = clicksOfD r.data s) := by
  rcases hres : store rng r target with ⟨res, r2, lg⟩
  dsimp only
  rcases res with msg | su
  · have hdata : r2.data = r.data := storeAux_error_data rng target 10 0 r [] msg r2 lg hres
    rw [hdata]
    exact ⟨hctr, hfresh, fun s => rfl⟩
  · obtain ⟨_, _, _, hmain, hdata, _⟩ := storeAux_ok rng target 10 0 r [] su r2 lg hres
    rw [hdata]
    refine ⟨counterInvD_rset_prim _ _ _ hctr, fun s hs => ?_,
      fun s => clicksOfD_rset_prim _ _ _ _⟩
    rw [clicksOfD_rset_prim]
    exact hfresh s (rget_rset_none _ _ _ _ hs)

theorem sampleGo_preserves (keys : List String) :
    ∀ (r : Redis) (acc : List ShortUrl), CounterInvD r.data →
      CounterInvD (sampleGo keys r acc).2.data ∧
      (∀ s, clicksOfD (sampleGo keys r acc).2.data s = clicksOfD r.data s) ∧
      (∀ k, rget (sampleGo keys r acc).2.data k = none → rget r.data k = none) := by
  induction keys with
  | nil =>
    intro r acc hctr
    exact ⟨hctr, fun s => rfl, fun k h => h⟩
  | cons k ks ih =>
    intro r acc hctr
    rcases hs : slugFromKey k with e | slug
    · rw [sampleGo, hs]
      dsimp only
      exact ih r acc hctr
    · rcases hg : getDetailsOfKey r slug with ⟨res, r1⟩
      have hpre := getDetails_preserves r slug hctr
      rw [hg] at hpre
      dsimp only at hpre
      rcases res with e | su
      · rw [sampleGo, hs]
        dsimp only
        rw [hg]
        dsimp only
        obtain ⟨h1, h2, h3⟩ := ih r1 acc hpre.1
        exact ⟨h1, fun s => (h2 s).trans (hpre.2.1 s),
          fun k2 hk2 => hpre.2.2 k2 (h3 k2 hk2)⟩
      · rw [sampleGo, hs]
        dsimp only
        rw [hg]
        dsimp only
        obtain ⟨h1, h2, h3⟩ := ih r1 (acc ++ [su]) hpre.1
        exact ⟨h1, fun s => (h2 s).trans (hpre.2.1 s),
          fun k2 hk2 => hpre.2.2 k2 (h3 k2 hk2)⟩

theorem recordHit_preserves (r : Redis) (slug : String)
    (hctr : CounterInvD r.data) (hfresh : FreshInvD r.data) :
    CounterInvD (recordHit r slug).2.data ∧
    FreshInvD (recordHit r slug).2.data ∧
    (∀ s, clicksOfD r.data s ≤ clicksOfD (recordHit r slug).2.data s) := by
  rcases h1 : tick r with ⟨b1, r1⟩
  have hd1 : r1.data = r.data := by rw [← tick_data r, h1]
  simp only [recordHit, h1]
  cases b1
  case true =>
    dsimp only
    rw [hd1]
    exact ⟨hctr, hfresh, fun s => le_refl _⟩
  case false =>
    dsimp only
    rcases hget : getData r1.data (keyOfSlug slug) with e | target
    · dsimp only
      rw [hd1]
      exact ⟨hctr, hfresh, fun s => le_refl _⟩
    · dsimp only
      have hprimE : ∃ e2, rget r1.data (keyOfSlug slug) = some e2 := by
        rcases hp : rget r1.data (keyOfSlug slug) with _ | e2
        · rw [getData, hp] at hget
          simp at hget
        · exact ⟨e2, rfl⟩
      obtain ⟨e, hprim⟩ := hprimE
      rcases h2 : tick r1 with ⟨b2, r2⟩
      have hd2 : r2.data = r1.data := by rw [← tick_data r1, h2]
      have hctr2 : CounterInvD r2.data := by rw [hd2, hd1]; exact hctr
      have hfresh2 : FreshInvD r2.data := by rw [hd2, hd1]; exact hfresh
      have hprim2 : rget r2.data (keyOfSlug slug) = some e := by rw [hd2]; exact hprim
      cases b2
      case false =>
        dsimp only
        have hincr := incrByData_ctr_ok r2.data slug hctr2
        rw [hincr]
        dsimp only
        obtain ⟨hic, hif, him⟩ := hitIncr_preserves r2.data slug e
          ((rget r2.data (keyOfSlugHitCount slug)).bind Entry.ttl) hprim2 hctr2 hfresh2
        rcases h3 : tick ⟨rset r2.data (keyOfSlugHitCount slug)
            ⟨RVal.int (clicksOfD r2.data slug + 1),
             (rget r2.data (keyOfSlugHitCount slug)).bind Entry.ttl⟩, r2.glitches⟩
          with ⟨b3, r4⟩
        have hd3 : r4.data = rset r2.data (keyOfSlugHitCount slug)
            ⟨RVal.int (clicksOfD r2.data slug + 1),
             (rget r2.data (keyOfSlugHitCount slug)).bind Entry.ttl⟩ := by
          have ht := tick_data ⟨rset r2.data (keyOfSlugHitCount slug)
            ⟨RVal.int (clicksOfD r2.data slug + 1),
             (rget r2.data (keyOfSlugHitCount slug)).bind Entry.ttl⟩, r2.glitches⟩
          rw [h3] at ht
          exact ht
        cases b3
        case true =>
          dsimp only
          rw [hd3]
          refine ⟨hic, hif, fun s => ?_⟩
          have hcc : clicksOfD r.data s = clicksOfD r2.data s := by rw [hd2, hd1]
          rw [hcc]
          exact him s
        case false =>
          dsimp only
          rw [hd3]
          obtain ⟨hec, hef, hee⟩ := expire2_preserves _ (keyOfSlugHitCount slug)
            (keyOfSlug slug) default_ttl hic hif
          refine ⟨hec, hef, fun s => ?_⟩
          have hcc : clicksOfD r.data s = clicksOfD r2.data s := by rw [hd2, hd1]
          rw [hee s, hcc]
          exact him s
      case true =>
        dsimp only
        rcases h3 : tick ⟨r2.data, r2.glitches⟩ with ⟨b3, r4⟩
        have hd3 : r4.data = r2.data := by
          have ht := tick_data ⟨r2.data, r2.glitches⟩
          rw [h3] at ht
          exact ht
        cases b3
        case true =>
          dsimp only
          rw [hd3]
          refine ⟨hctr2, hfresh2, fun s => ?_⟩
          have hcc : clicksOfD r.data s = clicksOfD r2.data s := by rw [hd2, hd1]
          rw [hcc]
        case false =>
          dsimp only
          rw [hd3]
          obtain ⟨hec, hef, hee⟩ := expire2_preserves _ (keyOfSlugHitCount slug)
            (keyOfSlug slug) default_ttl hctr2 hfresh2
          refine ⟨hec, hef, fun s => ?_⟩
          have hcc : clicksOfD r.data s = clicksOfD r2.data s := by rw [hd2, hd1]
          rw [hee s, hcc]


theorem freshInvD_oneSlug : FreshInvD oneSlugState.data := by
  intro s hs
  have hne : ¬ (("url:abcdefgh" : String) = keyOfSlugHitCount s) := by
    have hlit : ("url:abcdefgh" : String) = keyOfSlug "abcdefgh" := rfl
    rw [hlit]
    exact keyOfSlug_ne_hitCount _ s
  simp [clicksOfD, oneSlugState, rget, hne]

theorem sampleExisting_preserves (r : Redis) (hctr : CounterInvD r.data) :
    CounterInvD (sampleExisting r).2.data ∧
    (∀ s2, clicksOfD (sampleExisting r).2.data s2 = clicksOfD r.data s2) ∧
    (∀ k, rget (sampleExisting r).2.data k = none → rget r.data k = none) := by
  simp only [sampleExisting]
  rcases ht : tick r with ⟨g, r1⟩
  have hdt : r1.data = r.data := by rw [← tick_data r, ht]
  cases g
  case true =>
    dsimp only
    rw [hdt]
    exact ⟨hctr, fun s2 => rfl, fun k h => h⟩
  case false =>
    dsimp only
    have hctr1 : CounterInvD r1.data := by rw [hdt]; exact hctr
    obtain ⟨h1, h2, h3⟩ := sampleGo_preserves (scanData r1.data (keyOfSlug "*") 10) r1 [] hctr1
    refine ⟨h1, fun s2 => ?_, fun k h => ?_⟩
    · rw [h2 s2, hdt]
    · rw [← hdt]
      exact h3 k h

/-- C9: from any state satisfying the store invariant (counters are
non-negative integers and a slug without a primary key reads 0 clicks),
the observed click count of every slug is non-negative; every core
operation preserves the invariant and never decreases any click count;
`getDetailsOfKey` and `sampleExisting` leave every click count
unchanged, `store` changes no counter key and a successful `store`
leaves the allocated slug's observed clicks at 0, and on a healthy
backend a resolve of an existing slug increments its count by
exactly 1. -/
theorem claim9_clicks_monotonic (r : Redis) (op : Op) (s : String)
    (hinv : StoreInv r) :
    0 ≤ clicksOf r s ∧
    StoreInv (step r op) ∧
    clicksOf r s ≤ clicksOf (step r op) s ∧
    (∀ s2, clicksOf (step r (Op.get s2)) s = clicksOf r s) ∧
    (∀ rng tgt, clicksOf (step r (Op.create rng tgt)) s = clicksOf r s) ∧
    clicksOf (step r Op.enumerate) s = clicksOf r s ∧
    (r.glitches = [] → ∀ e, rget r.data (keyOfSlug s) = some e →
      clicksOf (step r (Op.hit s)) s = clicksOf r s + 1) ∧
    (∀ rng tgt su r2 lg, store rng r tgt = (Except.ok su, r2, lg) →
      clicksOf r2 su.Slug = 0) := by
  obtain ⟨hctr, hfresh⟩ := hinv
  have hstep : ∀ op2 : Op, (CounterInvD (step r op2).data ∧ FreshInvD (step r op2).data) ∧
      clicksOfD r.data s ≤ clicksOfD (step r op2).data s := by
    intro op2
    cases op2 with
    | create rng tgt =>
      obtain ⟨h1, h2, h3⟩ := store_preserves rng r tgt hctr hfresh
      exact ⟨⟨h1, h2⟩, le_of_eq (h3 s).symm⟩
    | get s2 =>
      obtain ⟨h1, h2, h3⟩ := getDetails_preserves r s2 hctr
      exact ⟨⟨h1, freshInvD_of_evo _ _ hfresh h2 h3⟩, le_of_eq (h2 s).symm⟩
    | hit s2 =>
      obtain ⟨h1, h2, h3⟩ := recordHit_preserves r s2 hctr hfresh
      exact ⟨⟨h1, h2⟩, h3 s⟩
    | enumerate =>
      obtain ⟨h1, h2, h3⟩ := sampleExisting_preserves r hctr
      exact ⟨⟨h1, freshInvD_of_evo _ _ hfresh h2 h3⟩, le_of_eq (h2 s).symm⟩
  refine ⟨clicksOfD_nonneg r.data s hctr, (hstep op).1, (hstep op).2,
    fun s2 => (getDetails_preserves r s2 hctr).2.1 s,
    fun rng tgt => (store_preserves rng r tgt hctr hfresh).2.2 s,
    (sampleExisting_preserves r hctr).2.1 s,
    fun hg e hmain => ?_, fun rng tgt su r2 lg h => ?_⟩
  · have hspec := recordHit_spec r s e hg hctr hmain
    have hpost := hspec.2.2.1
    show clicksOfD (recordHit r s).2.data s = clicksOfD r.data s + 1
    simp [clicksOfD, hpost]
  · obtain ⟨_, _, _, hmain, hdata, _⟩ := storeAux_ok rng tgt 10 0 r [] su r2 lg h
    show clicksOfD r2.data su.Slug = 0
    rw [hdata, clicksOfD_rset_prim]
    exact hfresh su.Slug hmain

/-- Witness for C9 on the concrete one-record store: its clicks are
non-negative and one resolve step preserves the invariant. -/
theorem claim9_witness :
    0 ≤ clicksOf oneSlugState "abcdefgh" ∧
    StoreInv (step oneSlugState (Op.hit "abcdefgh")) :=
  ⟨(claim9_clicks_monotonic oneSlugState (Op.hit "abcdefgh") "abcdefgh"
      ⟨counterInvD_oneSlug, freshInvD_oneSlug⟩).1,
   (claim9_clicks_monotonic oneSlugState (Op.hit "abcdefgh") "abcdefgh"
      ⟨counterInvD_oneSlug, freshInvD_oneSlug⟩).2.1⟩

end UrlShortener
